import Mathlib

/-!
Verification of the streaming buffering/decimation core of mne-cpp:
the decimating frame buffer behind `StcModel`
(`MNE/disp3D/helpers/stcmodel.h`) and the per-channel sample buffer
`TMSIChannel` (`applications/mne_x/plugins/tmsi/tmsichannel.h`).

Scalars are embedded as rationals: the code performs no arithmetic on
the sample values, only storage, retrieval and order comparisons, all of
which are exact on IEEE doubles and are mirrored exactly by `ℚ`.
-/

/-- Error kinds of the core (spec section 7). -/
inductive BufError
  | DimensionMismatch
  | IndexOutOfRange
  | LoadFailure
  | EmptyBuffer
deriving Repr, DecidableEq

/-- A Frame: one fixed-width vector of per-channel scalar values
(`VectorXd` in `stcmodel.h`). -/
abbrev Frame := List ℚ

/-- Modelled from the spec: the body of `StcModel` is not in the sources
(only the class declaration in `stcmodel.h` with members `m_data`,
`m_iDownsampling`, `m_iCurrentSample`), so the DecimatingFrameBuffer state
follows the spec's data model: retained `frames`, the `decimationFactor`
N, the `arrivalCounter` of frames seen since the last retained one, and
the channel width established by the first append. -/
structure DecimatingFrameBuffer where
  decimationFactor : ℕ
  establishedWidth : Option ℕ
  frames : List Frame
  arrivalCounter : ℕ
deriving Repr, DecidableEq

namespace DecimatingFrameBuffer

/-- Modelled from the spec: a buffer is created empty with a chosen N. -/
def empty (N : ℕ) : DecimatingFrameBuffer :=
  ⟨N, none, [], 0⟩

/-- Modelled from the spec: `append` (the role of `StcModel::addData`,
whose body is missing from the sources).  The first call establishes the
width and the very first frame is always retained; a later call with a
mismatched width fails with `DimensionMismatch` and leaves state
unchanged; otherwise the counter advances and the frame is retained
exactly when it is the Nth since the last retained one, whereupon the
counter resets to 0. -/
def append (buf : DecimatingFrameBuffer) (f : Frame) :
    Except BufError DecimatingFrameBuffer :=
  match buf.establishedWidth with
  | none =>
      Except.ok { buf with establishedWidth := some f.length,
                           frames := buf.frames ++ [f],
                           arrivalCounter := 0 }
  | some w =>
      if f.length ≠ w then
        Except.error BufError.DimensionMismatch
      else if buf.arrivalCounter + 1 = buf.decimationFactor then
        Except.ok { buf with frames := buf.frames ++ [f],
                             arrivalCounter := 0 }
      else
        Except.ok { buf with arrivalCounter := buf.arrivalCounter + 1 }

/-- Variant of `append` keeping the old state when the call fails (errors leave the
buffer untouched). -/
def appendKeep (buf : DecimatingFrameBuffer) (f : Frame) :
    DecimatingFrameBuffer :=
  match buf.append f with
  | Except.ok b => b
  | Except.error _ => buf

/-- Append a whole sequence of frames, stopping at the first error. -/
def appendAll (buf : DecimatingFrameBuffer) (fs : List Frame) :
    Except BufError DecimatingFrameBuffer :=
  fs.foldlM append buf

/-- Run a trace of appends from the empty buffer with factor N; failed
appends leave the state unchanged. -/
def runTrace (N : ℕ) (fs : List Frame) : DecimatingFrameBuffer :=
  fs.foldl appendKeep (empty N)

/-- Modelled from the spec: `rowCount` returns the number of channels,
or 0 if no frame has ever been retained. -/
def rowCount (buf : DecimatingFrameBuffer) : ℕ :=
  match buf.frames with
  | [] => 0
  | f :: _ => f.length

/-- Modelled from the spec: `columnCount` returns the number of retained
frames. -/
def columnCount (buf : DecimatingFrameBuffer) : ℕ :=
  buf.frames.length

/-- Modelled from the spec: `valueAt` (the role of `StcModel::data`,
whose body is missing from the sources) returns the scalar at a
channel/retained-frame coordinate and fails with `IndexOutOfRange` when
either index is outside the current bounds. -/
def valueAt (buf : DecimatingFrameBuffer) (c f : ℕ) : Except BufError ℚ :=
  if c < buf.rowCount ∧ f < buf.columnCount then
    Except.ok (((buf.frames.getD f []).getD c 0))
  else
    Except.error BufError.IndexOutOfRange

/-- Number of retained frames after k arrivals: 0 when k = 0, else
1 + ⌊(k-1)/N⌋ (first frame always retained, then every Nth). -/
def retainedCount (N k : ℕ) : ℕ :=
  if k = 0 then 0 else 1 + (k - 1) / N

/-- The retained subsequence of an arrival sequence: the frames at
arrival indices 0, N, 2N, … -/
def retainedFrames (N : ℕ) (fs : List Frame) : List Frame :=
  (List.range (retainedCount N fs.length)).map (fun j => fs.getD (j * N) [])

end DecimatingFrameBuffer


namespace TMSIPlugin

/-- State of a `TMSIChannel` (member fields of `tmsichannel.h`). -/
structure TMSIChannel where
  m_qStringResourceDataPath : String
  m_qStringChannelFile : String
  m_bIsEnabled : Bool
  m_bIsVisible : Bool
  m_vecBuffer : List ℚ
  m_dMin : ℚ
  m_dMax : ℚ
deriving Repr, DecidableEq

namespace TMSIChannel

/-- Source `TMSIChannel::setResourceDataPath`. -/
def setResourceDataPath (ch : TMSIChannel) (path : String) : TMSIChannel :=
  { ch with m_qStringResourceDataPath := path }

/-- Source `TMSIChannel::getResourceDataPath`. -/
def getResourceDataPath (ch : TMSIChannel) : String :=
  ch.m_qStringResourceDataPath

/-- Source `TMSIChannel::setChannelFile`. -/
def setChannelFile (ch : TMSIChannel) (file : String) : TMSIChannel :=
  { ch with m_qStringChannelFile := file }

/-- Source `TMSIChannel::getChannelFile`. -/
def getChannelFile (ch : TMSIChannel) : String :=
  ch.m_qStringChannelFile

/-- Source `TMSIChannel::getSamples`. -/
def getSamples (ch : TMSIChannel) : List ℚ :=
  ch.m_vecBuffer

/-- Source `TMSIChannel::setEnabled`. -/
def setEnabled (ch : TMSIChannel) (enabled : Bool) : TMSIChannel :=
  { ch with m_bIsEnabled := enabled }

/-- Source `TMSIChannel::isEnabled`. -/
def isEnabled (ch : TMSIChannel) : Bool :=
  ch.m_bIsEnabled

/-- Source `TMSIChannel::setVisible`. -/
def setVisible (ch : TMSIChannel) (visible : Bool) : TMSIChannel :=
  { ch with m_bIsVisible := visible }

/-- Source `TMSIChannel::isVisible`. -/
def isVisible (ch : TMSIChannel) : Bool :=
  ch.m_bIsVisible

/-- Source `TMSIChannel::getMinimum`: returns the cached `m_dMin` field
unconditionally — no emptiness check, no error path. -/
def getMinimum (ch : TMSIChannel) : ℚ :=
  ch.m_dMin

/-- Source `TMSIChannel::getMaximum`: returns the cached `m_dMax` field
unconditionally — no emptiness check, no error path. -/
def getMaximum (ch : TMSIChannel) : ℚ :=
  ch.m_dMax

/-- Minimum of a sample list by a single linear scan. -/
def scanMin : List ℚ → ℚ
  | [] => 0
  | x :: xs => xs.foldl min x

/-- Maximum of a sample list by a single linear scan. -/
def scanMax : List ℚ → ℚ
  | [] => 0
  | x :: xs => xs.foldl max x

/-- Modelled from the spec: `TMSIChannel::initChannel` (its body is not
in the sources, only its declaration).  It asks the external loader
collaborator for the waveform at the configured resource path and
channel file; on success it replaces `samples` wholly and recomputes the
extrema by one linear scan; when the loader cannot produce data it fails
with `LoadFailure` and the state is left exactly as it was. -/
def initChannel (loader : String → String → Option (List ℚ))
    (ch : TMSIChannel) : Except BufError TMSIChannel :=
  match loader ch.m_qStringResourceDataPath ch.m_qStringChannelFile with
  | none => Except.error BufError.LoadFailure
  | some samples =>
      Except.ok { ch with m_vecBuffer := samples,
                          m_dMin := scanMin samples,
                          m_dMax := scanMax samples }

/-- Variant of `initChannel` keeping the old state when the load fails. -/
def initChannelKeep (loader : String → String → Option (List ℚ))
    (ch : TMSIChannel) : TMSIChannel :=
  match initChannel loader ch with
  | Except.ok c => c
  | Except.error _ => ch

/-- Modelled from the spec: `TMSIChannel::clear` (its body is not in the
sources, only its declaration).  It empties `samples`; the cached
extrema are thereby invalidated (no defined value is assigned to them),
it always succeeds and is idempotent. -/
def clear (ch : TMSIChannel) : TMSIChannel :=
  { ch with m_vecBuffer := [] }

end TMSIChannel

end TMSIPlugin

/-- Seven 2-channel demo frames F1..F7 (the N = 3 spec scenario). -/
def demoFrames : List Frame :=
  [[1, 2], [3, 4], [5, 6], [7, 8], [9, 10], [11, 12], [13, 14]]

/-- The buffer state reached by appending `demoFrames` with N = 3: the
retained frames are F1, F4 and F7, the counter has just reset. -/
def demoBuf : DecimatingFrameBuffer :=
  ⟨3, some 2, [[1, 2], [7, 8], [13, 14]], 0⟩

/-- A freshly constructed demo channel (nothing loaded yet). -/
def baseChannel : TMSIPlugin.TMSIChannel :=
  ⟨"resources", "chan.txt", true, true, [], 0, 0⟩

/-- A loader producing the spec scenario waveform [0.5, -2.0, 3.25, 1.0]. -/
def demoLoader : String → String → Option (List ℚ) :=
  fun _ _ => some [1/2, -2, 13/4, 1]

/-- A loader that never finds its resource. -/
def failLoader : String → String → Option (List ℚ) :=
  fun _ _ => none

/-- The demo channel after successfully loading the scenario waveform. -/
def demoChannel : TMSIPlugin.TMSIChannel :=
  TMSIPlugin.TMSIChannel.initChannelKeep demoLoader baseChannel

namespace DecimatingFrameBuffer

theorem exceptOk_bind {ε α β : Type} (a : α) (g : α → Except ε β) :
    (Except.ok a >>= g) = g a := rfl

theorem succ_mod_eq_zero (N j : ℕ) (h : j % N + 1 = N) : (j + 1) % N = 0 := by
  have h1 : j + 1 = N * (j / N) + N := by
    conv_lhs => rw [← Nat.div_add_mod j N]
    omega
  rw [h1, Nat.mul_add_mod, Nat.mod_self]

theorem succ_mod_eq_succ (N j : ℕ) (hN : 1 ≤ N) (h : j % N + 1 ≠ N) :
    (j + 1) % N = j % N + 1 := by
  have hlt : j % N < N := Nat.mod_lt _ hN
  have h2 : j % N + 1 < N := by omega
  conv_lhs => rw [← Nat.div_add_mod j N]
  rw [Nat.add_assoc, Nat.mul_add_mod, Nat.mod_eq_of_lt h2]

theorem counter_full_iff (N j : ℕ) (hN : 1 ≤ N) :
    j % N + 1 = N ↔ (j + 1) % N = 0 := by
  constructor
  · exact succ_mod_eq_zero N j
  · intro h
    by_contra hne
    rw [succ_mod_eq_succ N j hN hne] at h
    omega

theorem retainedCount_succ (N k : ℕ) (_hN : 1 ≤ N) :
    retainedCount N (k + 1) =
      retainedCount N k + (if k % N = 0 then 1 else 0) := by
  cases k with
  | zero =>
      simp [retainedCount]
  | succ j =>
      simp only [retainedCount, if_neg (Nat.succ_ne_zero _),
        Nat.succ_sub_one]
      rw [Nat.succ_div]
      by_cases hd : (j + 1) % N = 0
      · rw [if_pos hd, if_pos (Nat.dvd_iff_mod_eq_zero.mpr hd)]
        omega
      · rw [if_neg hd, if_neg (fun hdvd => hd (Nat.dvd_iff_mod_eq_zero.mp hdvd))]
        omega

theorem mul_lt_of_lt_retainedCount (N k j : ℕ)
    (hj : j < retainedCount N k) : j * N < k := by
  unfold retainedCount at hj
  by_cases hk : k = 0
  · rw [if_pos hk] at hj
    omega
  · rw [if_neg hk] at hj
    have h1 : j ≤ (k - 1) / N := by omega
    have h2 : j * N ≤ (k - 1) / N * N := Nat.mul_le_mul_right N h1
    have h3 : (k - 1) / N * N ≤ k - 1 := Nat.div_mul_le_self _ _
    omega

theorem retainedCount_mul_of_mod (N k : ℕ) (hN : 1 ≤ N) (hk : 1 ≤ k)
    (hm : k % N = 0) : retainedCount N k * N = k := by
  obtain ⟨q, hq⟩ : N ∣ k := Nat.dvd_iff_mod_eq_zero.mpr hm
  have hq0 : q ≠ 0 := by
    intro h0
    rw [h0, Nat.mul_zero] at hq
    omega
  obtain ⟨p, rfl⟩ : ∃ p, q = p + 1 := ⟨q - 1, by omega⟩
  have hdiv : (k - 1) / N = p := by
    have h2 : k - 1 = N * p + (N - 1) := by
      rw [hq, Nat.mul_succ]
      omega
    rw [h2, Nat.mul_add_div (by omega), Nat.div_eq_of_lt (by omega)]
    omega
  have hcnt : retainedCount N k = p + 1 := by
    unfold retainedCount
    rw [if_neg (by omega), hdiv]
    omega
  rw [hcnt, Nat.mul_comm]
  omega

theorem retainedFrames_length (N : ℕ) (fs : List Frame) :
    (retainedFrames N fs).length = retainedCount N fs.length := by
  simp [retainedFrames]

theorem retainedFrames_getD (N : ℕ) (fs : List Frame) (j : ℕ)
    (hj : j < retainedCount N fs.length) :
    (retainedFrames N fs).getD j [] = fs.getD (j * N) [] := by
  unfold retainedFrames
  have hlen : j < ((List.range (retainedCount N fs.length)).map
      (fun i => fs.getD (i * N) [])).length := by
    simpa using hj
  rw [List.getD_eq_getElem _ _ hlen]
  simp

theorem retainedFrames_concat (N : ℕ) (hN : 1 ≤ N) (fs : List Frame)
    (f : Frame) :
    retainedFrames N (fs ++ [f]) =
      retainedFrames N fs ++ (if fs.length % N = 0 then [f] else []) := by
  unfold retainedFrames
  rw [List.length_append, List.length_singleton,
    retainedCount_succ N fs.length hN]
  by_cases hd : fs.length % N = 0
  · rw [if_pos hd, if_pos hd, List.range_succ, List.map_append]
    congr 1
    · apply List.map_congr_left
      intro j hj
      rw [List.mem_range] at hj
      exact List.getD_append _ _ _ _ (mul_lt_of_lt_retainedCount N _ j hj)
    · simp only [List.map_cons, List.map_nil]
      congr 1
      by_cases hfs : fs.length = 0
      · have h0 : retainedCount N fs.length = 0 := by
          rw [hfs]
          rfl
        rw [List.length_eq_zero] at hfs
        subst hfs
        rw [h0, Nat.zero_mul]
        rfl
      · rw [retainedCount_mul_of_mod N fs.length hN (by omega) hd,
          List.getD_append_right _ _ _ _ (Nat.le_refl _), Nat.sub_self,
          List.getD_cons_zero]
  · rw [if_neg hd, if_neg hd, Nat.add_zero, List.append_nil]
    apply List.map_congr_left
    intro j hj
    rw [List.mem_range] at hj
    exact List.getD_append _ _ _ _ (mul_lt_of_lt_retainedCount N _ j hj)

theorem except_bind_ok {ε α β : Type} (a : α) (g : α → Except ε β) :
    (Except.ok (ε := ε) a).bind g = g a := rfl

theorem appendAll_concat (buf : DecimatingFrameBuffer) (fs : List Frame)
    (f : Frame) :
    appendAll buf (fs ++ [f]) =
      (appendAll buf fs).bind (fun b => b.append f) := by
  unfold appendAll
  rw [List.foldlM_append]
  cases hfold : List.foldlM append buf fs with
  | ok b =>
      rw [exceptOk_bind, List.foldlM_cons]
      show (b.append f >>= fun init => List.foldlM append init []) = b.append f
      cases b.append f with
      | ok b2 => rfl
      | error e => rfl
  | error e => rfl

/-- Computation rule for `append` when the width is established. -/
theorem append_est (N : ℕ) (ow : Option ℕ) (frs : List Frame) (ac : ℕ)
    (w : ℕ) (how : ow = some w) (g : Frame) :
    append ⟨N, ow, frs, ac⟩ g =
      if g.length ≠ w then Except.error BufError.DimensionMismatch
      else if ac + 1 = N then Except.ok ⟨N, ow, frs ++ [g], 0⟩
      else Except.ok ⟨N, ow, frs, ac + 1⟩ := by
  subst how
  rfl

/-- Computation rule for `append` before the width is established. -/
theorem append_unest (N : ℕ) (ow : Option ℕ) (frs : List Frame) (ac : ℕ)
    (how : ow = none) (g : Frame) :
    append ⟨N, ow, frs, ac⟩ g =
      Except.ok ⟨N, some g.length, frs ++ [g], 0⟩ := by
  subst how
  rfl

theorem retainedFrames_nil (N : ℕ) : retainedFrames N [] = [] := rfl

theorem retainedFrames_singleton (N : ℕ) (g : Frame) :
    retainedFrames N [g] = [g] := by
  unfold retainedFrames retainedCount
  simp [List.range_succ]

/-- The full characterisation of a uniform-width run: every append
succeeds, the width is the common frame width, the retained frames are
the arrivals at indices 0, N, 2N, …, and the counter is (k-1) mod N. -/
theorem appendAll_ok (N : ℕ) (hN : 1 ≤ N) (w : ℕ) :
    ∀ fs : List Frame, (∀ f ∈ fs, f.length = w) →
    appendAll (empty N) fs =
      Except.ok { decimationFactor := N,
                  establishedWidth := if fs.length = 0 then none else some w,
                  frames := retainedFrames N fs,
                  arrivalCounter := (fs.length - 1) % N } := by
  intro fs
  induction fs using List.reverseRecOn with
  | nil =>
      intro _
      simp [appendAll, List.foldlM_nil, empty, retainedFrames, retainedCount]
      rfl
  | append_singleton gs g ih =>
      intro hw
      have hwg : g.length = w := hw g (by simp)
      have hwgs : ∀ f ∈ gs, f.length = w := fun f hf => hw f (by simp [hf])
      rw [appendAll_concat, ih hwgs, except_bind_ok]
      cases gs with
      | nil =>
          rw [append_unest N _ _ _ (by simp) g, hwg]
          have h1 : retainedFrames N ([] ++ [g]) = [g] := by
            rw [List.nil_append, retainedFrames_singleton]
          have h2 : (if (([] : List Frame) ++ [g]).length = 0 then
              (none : Option ℕ) else some w) = some w := by simp
          have h3 : ((([] : List Frame) ++ [g]).length - 1) % N = 0 := by simp
          rw [h1, h2, h3]
          rfl
      | cons g0 gs0 =>
          have hk1 : 1 ≤ (g0 :: gs0).length := by simp
          rw [append_est N _ _ _ w (by simp) g,
            if_neg (by simp [hwg] : ¬g.length ≠ w)]
          by_cases hfull : ((g0 :: gs0).length - 1) % N + 1 = N
          · have hmod : (g0 :: gs0).length % N = 0 := by
              have h := succ_mod_eq_zero N ((g0 :: gs0).length - 1) hfull
              have hk2 : (g0 :: gs0).length - 1 + 1 = (g0 :: gs0).length := by
                omega
              rwa [hk2] at h
            rw [if_pos hfull]
            have hA : retainedFrames N ((g0 :: gs0) ++ [g]) =
                retainedFrames N (g0 :: gs0) ++ [g] := by
              rw [retainedFrames_concat N hN _ g, if_pos hmod]
            have hB : (((g0 :: gs0) ++ [g]).length - 1) % N = 0 := by
              rw [List.length_append, List.length_singleton,
                Nat.add_sub_cancel]
              exact hmod
            have hC : (if ((g0 :: gs0) ++ [g]).length = 0 then
                (none : Option ℕ) else some w) = some w := by simp
            have hD : (if (g0 :: gs0).length = 0 then
                (none : Option ℕ) else some w) = some w := by simp
            rw [hA, hB, hC, hD]
          · have hmod : ¬(g0 :: gs0).length % N = 0 := by
              intro h0
              apply hfull
              rw [counter_full_iff N ((g0 :: gs0).length - 1) hN]
              have hk2 : (g0 :: gs0).length - 1 + 1 = (g0 :: gs0).length := by
                omega
              rw [hk2]
              exact h0
            rw [if_neg hfull]
            have hA : retainedFrames N ((g0 :: gs0) ++ [g]) =
                retainedFrames N (g0 :: gs0) := by
              rw [retainedFrames_concat N hN _ g, if_neg hmod,
                List.append_nil]
            have hB : (((g0 :: gs0) ++ [g]).length - 1) % N =
                ((g0 :: gs0).length - 1) % N + 1 := by
              rw [List.length_append, List.length_singleton,
                Nat.add_sub_cancel]
              have h := succ_mod_eq_succ N ((g0 :: gs0).length - 1) hN hfull
              have hk2 : (g0 :: gs0).length - 1 + 1 = (g0 :: gs0).length := by
                omega
              rw [hk2] at h
              omega
            have hC : (if ((g0 :: gs0) ++ [g]).length = 0 then
                (none : Option ℕ) else some w) = some w := by simp
            have hD : (if (g0 :: gs0).length = 0 then
                (none : Option ℕ) else some w) = some w := by simp
            rw [hA, hB, hC, hD]

theorem runTrace_concat (N : ℕ) (fs : List Frame) (f : Frame) :
    runTrace N (fs ++ [f]) = (runTrace N fs).appendKeep f := by
  unfold runTrace
  rw [List.foldl_concat]

theorem getD_concat_self (l : List Frame) (a d : Frame) :
    (l ++ [a]).getD l.length d = a := by
  rw [List.getD_append_right _ _ _ _ (Nat.le_refl _), Nat.sub_self,
    List.getD_cons_zero]

theorem map_getD_append (is : List ℕ) (gs : List Frame) (g : Frame)
    (h : ∀ i ∈ is, i < gs.length) :
    is.map (fun i => (gs ++ [g]).getD i []) =
      is.map (fun i => gs.getD i []) := by
  apply List.map_congr_left
  intro i hi
  exact List.getD_append _ _ _ _ (h i hi)

/-- The reachability invariant of the decimating buffer: the counter
stays below N and the retained frames sit at arrival indices that are
pairwise at least N apart (tracked as a `Chain'` on the index list,
together with the distance from the last retained index to the front of
the stream). -/
theorem runTrace_inv (N : ℕ) (hN : 1 ≤ N) (fs : List Frame) :
    (runTrace N fs).decimationFactor = N ∧
    (runTrace N fs).arrivalCounter < N ∧
    ∃ is : List ℕ,
      List.Chain' (fun a b => a + N ≤ b) is ∧
      (∀ i ∈ is, i < fs.length) ∧
      (runTrace N fs).frames = is.map (fun i => fs.getD i []) ∧
      (∀ p, is.getLast? = some p →
        p + (runTrace N fs).arrivalCounter < fs.length) ∧
      ((runTrace N fs).establishedWidth = none → is = []) := by
  induction fs using List.reverseRecOn with
  | nil =>
      refine ⟨rfl, ?_, [], List.chain'_nil, by simp, rfl, ?_, fun _ => rfl⟩
      · show (0 : ℕ) < N
        omega
      · intro p hp
        simp at hp
  | append_singleton gs g ih =>
      obtain ⟨hdec, hcnt, is, hchain, hbnd, hframes, hlast, hnone⟩ := ih
      rw [runTrace_concat]
      generalize hb : runTrace N gs = b at *
      obtain ⟨Nb, ow, frs, ac⟩ := b
      dsimp only at hdec hcnt hframes hlast hnone
      subst Nb
      cases how : ow with
      | none =>
          have his : is = [] := hnone (by rw [how])
          subst his
          have hfr : frs = [] := by simpa using hframes
          subst hfr
          subst how
          rw [show appendKeep ⟨N, none, [], ac⟩ g =
            ⟨N, some g.length, [] ++ [g], 0⟩ from rfl]
          refine ⟨rfl, by dsimp only; omega, [gs.length],
            List.chain'_singleton _, ?_, ?_, ?_, ?_⟩
          · intro i hi
            simp only [List.mem_singleton] at hi
            subst hi
            simp
          · dsimp only
            simp only [List.map_cons, List.map_nil, List.nil_append]
            rw [getD_concat_self]
          · intro p hp
            simp only [List.getLast?_singleton, Option.some.injEq] at hp
            subst hp
            dsimp only
            simp
          · intro hcontra
            simp at hcontra
      | some w0 =>
          subst how
          by_cases hgl : g.length ≠ w0
          · have hred : appendKeep ⟨N, some w0, frs, ac⟩ g =
                ⟨N, some w0, frs, ac⟩ := by
              unfold appendKeep
              rw [append_est N _ _ _ w0 rfl g, if_pos hgl]
            rw [hred]
            refine ⟨rfl, by dsimp only; omega, is, hchain, ?_, ?_, ?_, ?_⟩
            · intro i hi
              have := hbnd i hi
              simp only [List.length_append, List.length_singleton]
              omega
            · dsimp only
              rw [map_getD_append is gs g hbnd]
              exact hframes
            · intro p hp
              have := hlast p hp
              dsimp only
              simp only [List.length_append, List.length_singleton]
              omega
            · intro hcontra
              simp at hcontra
          · by_cases hfull : ac + 1 = N
            · have hred : appendKeep ⟨N, some w0, frs, ac⟩ g =
                  ⟨N, some w0, frs ++ [g], 0⟩ := by
                unfold appendKeep
                rw [append_est N _ _ _ w0 rfl g, if_neg hgl, if_pos hfull]
              rw [hred]
              refine ⟨rfl, by dsimp only; omega, is ++ [gs.length],
                ?_, ?_, ?_, ?_, ?_⟩
              · rw [List.chain'_append]
                refine ⟨hchain, List.chain'_singleton _, ?_⟩
                intro x hx y hy
                simp only [List.head?_cons, Option.mem_def,
                  Option.some.injEq] at hy
                subst hy
                have := hlast x (by simpa using hx)
                omega
              · intro i hi
                rw [List.mem_append] at hi
                simp only [List.length_append, List.length_singleton]
                rcases hi with hi | hi
                · have := hbnd i hi
                  omega
                · simp only [List.mem_singleton] at hi
                  omega
              · dsimp only
                rw [List.map_append, map_getD_append is gs g hbnd, ← hframes,
                  List.map_cons, List.map_nil, getD_concat_self]
              · intro p hp
                rw [List.getLast?_concat] at hp
                have hp2 := Option.some.inj hp
                subst hp2
                dsimp only
                simp
              · intro hcontra
                simp at hcontra
            · have hred : appendKeep ⟨N, some w0, frs, ac⟩ g =
                  ⟨N, some w0, frs, ac + 1⟩ := by
                unfold appendKeep
                rw [append_est N _ _ _ w0 rfl g, if_neg hgl, if_neg hfull]
              rw [hred]
              refine ⟨rfl, by dsimp only; omega, is, hchain, ?_, ?_, ?_, ?_⟩
              · intro i hi
                have := hbnd i hi
                simp only [List.length_append, List.length_singleton]
                omega
              · dsimp only
                rw [map_getD_append is gs g hbnd]
                exact hframes
              · intro p hp
                have := hlast p hp
                dsimp only
                simp only [List.length_append, List.length_singleton]
                omega
              · intro hcontra
                simp at hcontra

end DecimatingFrameBuffer

namespace DecimatingFrameBuffer

/-- C1: For every decimation factor N ≥ 1 and every sequence of frames
(of the buffer's uniform channel width) appended to the
DecimatingFrameBuffer, `columnCount()` equals 1 + ⌊(framesAppended-1)/N⌋
once at least one frame has been appended and 0 before any append; for
N = 1 it equals framesAppended; and the retained frames are exactly the
arrivals at indices 0, N, 2N, … — so for N = 3 with seven appended
frames the 1st, 4th and 7th are retained. -/
theorem columnCount_decimation (N : ℕ) (hN : 1 ≤ N) (w : ℕ)
    (fs : List Frame) (hw : ∀ f ∈ fs, f.length = w)
    (buf : DecimatingFrameBuffer)
    (hbuf : appendAll (empty N) fs = Except.ok buf) :
    buf.columnCount =
      (if fs.length = 0 then 0 else 1 + (fs.length - 1) / N) ∧
    (N = 1 → buf.columnCount = fs.length) ∧
    buf.frames =
      (List.range (retainedCount N fs.length)).map
        (fun j => fs.getD (j * N) []) := by
  rw [appendAll_ok N hN w fs hw] at hbuf
  obtain rfl := Except.ok.inj hbuf
  refine ⟨?_, ?_, ?_⟩
  · show (retainedFrames N fs).length = _
    rw [retainedFrames_length]
    rfl
  · intro h1
    subst h1
    show (retainedFrames 1 fs).length = fs.length
    rw [retainedFrames_length]
    unfold retainedCount
    by_cases hk : fs.length = 0
    · rw [if_pos hk, hk]
    · rw [if_neg hk, Nat.div_one]
      omega
  · rfl

/-- Witness for C1: the spec scenario, N = 3 with the seven 2-channel
frames F1..F7; the retained frames are F1, F4, F7 and columnCount is 3. -/
theorem columnCount_decimation_witness :
    demoBuf.columnCount =
      (if demoFrames.length = 0 then 0
       else 1 + (demoFrames.length - 1) / 3) ∧
    ((3 : ℕ) = 1 → demoBuf.columnCount = demoFrames.length) ∧
    demoBuf.frames =
      (List.range (retainedCount 3 demoFrames.length)).map
        (fun j => demoFrames.getD (j * 3) []) :=
  columnCount_decimation 3 (by omega) 2 demoFrames (by decide) demoBuf
    (by rfl)

/-- C2: once a first append has established the channel width, appending
a frame of a different width fails with `DimensionMismatch` and leaves
the whole buffer state — retained frames and arrival counter included —
unchanged. -/
theorem append_mismatch_unchanged (buf : DecimatingFrameBuffer) (w : ℕ)
    (hw : buf.establishedWidth = some w) (f : Frame)
    (hf : f.length ≠ w) :
    buf.append f = Except.error BufError.DimensionMismatch ∧
    buf.appendKeep f = buf := by
  obtain ⟨N, ow, frs, ac⟩ := buf
  dsimp only at hw
  subst hw
  have he : append ⟨N, some w, frs, ac⟩ f =
      Except.error BufError.DimensionMismatch := by
    rw [append_est N _ _ _ w rfl f, if_pos hf]
  refine ⟨he, ?_⟩
  unfold appendKeep
  rw [he]

/-- Witness for C2: appending a 3-wide frame to the demo buffer whose
established width is 2. -/
theorem append_mismatch_unchanged_witness :
    demoBuf.append [1, 2, 3] = Except.error BufError.DimensionMismatch ∧
    demoBuf.appendKeep [1, 2, 3] = demoBuf :=
  append_mismatch_unchanged demoBuf 2 rfl [1, 2, 3] (by decide)

/-- C3: `valueAt (c, f)` within the current bounds returns exactly the
scalar at channel c of the f-th retained frame — the arrival with index
f·N, hence unaffected by frames discarded by decimation after it — and
fails with `IndexOutOfRange` whenever either index is outside the
current bounds. -/
theorem valueAt_retained (N : ℕ) (hN : 1 ≤ N) (w : ℕ) (fs : List Frame)
    (hw : ∀ f ∈ fs, f.length = w) (buf : DecimatingFrameBuffer)
    (hbuf : appendAll (empty N) fs = Except.ok buf) (c f : ℕ) :
    (c < buf.rowCount ∧ f < buf.columnCount →
      buf.valueAt c f = Except.ok ((fs.getD (f * N) []).getD c 0)) ∧
    (¬(c < buf.rowCount ∧ f < buf.columnCount) →
      buf.valueAt c f = Except.error BufError.IndexOutOfRange) := by
  rw [appendAll_ok N hN w fs hw] at hbuf
  obtain rfl := Except.ok.inj hbuf
  constructor
  · intro hin
    unfold valueAt
    rw [if_pos hin]
    have hf : f < retainedCount N fs.length := by
      have h2 := hin.2
      unfold columnCount at h2
      dsimp only at h2
      rwa [retainedFrames_length] at h2
    dsimp only
    rw [retainedFrames_getD N fs f hf]
  · intro hout
    unfold valueAt
    rw [if_neg hout]

/-- Witness for C3: reading channel 1 of the 3rd retained frame (= F7)
of the demo buffer. -/
theorem valueAt_retained_witness :
    ((1 < demoBuf.rowCount ∧ 2 < demoBuf.columnCount →
      demoBuf.valueAt 1 2 =
        Except.ok ((demoFrames.getD (2 * 3) []).getD 1 0)) ∧
     (¬(1 < demoBuf.rowCount ∧ 2 < demoBuf.columnCount) →
      demoBuf.valueAt 1 2 = Except.error BufError.IndexOutOfRange)) :=
  valueAt_retained 3 (by omega) 2 demoFrames (by decide) demoBuf (by rfl)
    1 2

/-- C4: every state produced from the empty buffer by a sequence of
append operations (failed appends leave the state unchanged) has its
arrival counter in [0, N-1], and its retained frames sit at arrival
positions that are pairwise at least N apart in arrival order. -/
theorem trace_invariant (N : ℕ) (hN : 1 ≤ N) (fs : List Frame) :
    (runTrace N fs).arrivalCounter < N ∧
    ∃ is : List ℕ,
      List.Pairwise (fun a b => a + N ≤ b) is ∧
      (∀ i ∈ is, i < fs.length) ∧
      (runTrace N fs).frames = is.map (fun i => fs.getD i []) := by
  obtain ⟨-, hcnt, is, hchain, hbnd, hframes, -, -⟩ := runTrace_inv N hN fs
  refine ⟨hcnt, is, ?_, hbnd, hframes⟩
  haveI : IsTrans ℕ (fun a b => a + N ≤ b) :=
    ⟨fun a b c hab hbc => by omega⟩
  rwa [List.chain'_iff_pairwise] at hchain

/-- Witness for C4 at N = 3 with the seven demo frames. -/
theorem trace_invariant_witness :
    (runTrace 3 demoFrames).arrivalCounter < 3 ∧
    ∃ is : List ℕ,
      List.Pairwise (fun a b => a + 3 ≤ b) is ∧
      (∀ i ∈ is, i < demoFrames.length) ∧
      (runTrace 3 demoFrames).frames =
        is.map (fun i => demoFrames.getD i []) :=
  trace_invariant 3 (by omega) demoFrames

end DecimatingFrameBuffer

namespace TMSIPlugin.TMSIChannel

theorem foldl_min_le (l : List ℚ) :
    ∀ a : ℚ, l.foldl min a ≤ a ∧ ∀ y ∈ l, l.foldl min a ≤ y := by
  induction l with
  | nil =>
      intro a
      exact ⟨le_refl a, by simp⟩
  | cons x xs ih =>
      intro a
      obtain ⟨h1, h2⟩ := ih (min a x)
      simp only [List.foldl_cons]
      refine ⟨le_trans h1 (min_le_left a x), ?_⟩
      intro y hy
      rcases List.mem_cons.mp hy with rfl | hy
      · exact le_trans h1 (min_le_right a y)
      · exact h2 y hy

theorem foldl_min_mem (l : List ℚ) :
    ∀ a : ℚ, l.foldl min a = a ∨ l.foldl min a ∈ l := by
  induction l with
  | nil =>
      intro a
      exact Or.inl rfl
  | cons x xs ih =>
      intro a
      simp only [List.foldl_cons]
      rcases ih (min a x) with h | h
      · rcases le_total a x with hax | hxa
        · exact Or.inl (by rw [h, min_eq_left hax])
        · refine Or.inr ?_
          rw [h, min_eq_right hxa]
          exact List.mem_cons_self x xs
      · exact Or.inr (List.mem_cons_of_mem x h)

theorem foldl_max_ge (l : List ℚ) :
    ∀ a : ℚ, a ≤ l.foldl max a ∧ ∀ y ∈ l, y ≤ l.foldl max a := by
  induction l with
  | nil =>
      intro a
      exact ⟨le_refl a, by simp⟩
  | cons x xs ih =>
      intro a
      obtain ⟨h1, h2⟩ := ih (max a x)
      simp only [List.foldl_cons]
      refine ⟨le_trans (le_max_left a x) h1, ?_⟩
      intro y hy
      rcases List.mem_cons.mp hy with rfl | hy
      · exact le_trans (le_max_right a y) h1
      · exact h2 y hy

theorem foldl_max_mem (l : List ℚ) :
    ∀ a : ℚ, l.foldl max a = a ∨ l.foldl max a ∈ l := by
  induction l with
  | nil =>
      intro a
      exact Or.inl rfl
  | cons x xs ih =>
      intro a
      simp only [List.foldl_cons]
      rcases ih (max a x) with h | h
      · rcases le_total x a with hxa | hax
        · exact Or.inl (by rw [h, max_eq_left hxa])
        · refine Or.inr ?_
          rw [h, max_eq_right hax]
          exact List.mem_cons_self x xs
      · exact Or.inr (List.mem_cons_of_mem x h)

theorem scanMin_le (l : List ℚ) (hl : l ≠ []) :
    ∀ y ∈ l, scanMin l ≤ y := by
  cases l with
  | nil => exact absurd rfl hl
  | cons x xs =>
      intro y hy
      show xs.foldl min x ≤ y
      rcases List.mem_cons.mp hy with rfl | hy
      · exact (foldl_min_le xs y).1
      · exact (foldl_min_le xs x).2 y hy

theorem scanMin_mem (l : List ℚ) (hl : l ≠ []) : scanMin l ∈ l := by
  cases l with
  | nil => exact absurd rfl hl
  | cons x xs =>
      show xs.foldl min x ∈ x :: xs
      rcases foldl_min_mem xs x with h | h
      · rw [h]
        exact List.mem_cons_self x xs
      · exact List.mem_cons_of_mem x h

theorem scanMax_ge (l : List ℚ) (hl : l ≠ []) :
    ∀ y ∈ l, y ≤ scanMax l := by
  cases l with
  | nil => exact absurd rfl hl
  | cons x xs =>
      intro y hy
      show y ≤ xs.foldl max x
      rcases List.mem_cons.mp hy with rfl | hy
      · exact (foldl_max_ge xs y).1
      · exact (foldl_max_ge xs x).2 y hy

theorem scanMax_mem (l : List ℚ) (hl : l ≠ []) : scanMax l ∈ l := by
  cases l with
  | nil => exact absurd rfl hl
  | cons x xs =>
      show xs.foldl max x ∈ x :: xs
      rcases foldl_max_mem xs x with h | h
      · rw [h]
        exact List.mem_cons_self x xs
      · exact List.mem_cons_of_mem x h

/-- C5: after every successful `initChannel` (with a non-empty loaded
waveform) the cached minimum is ≤ every sample, every sample is ≤ the
cached maximum, and both are attained by samples — i.e. they are the
exact extrema, with no tolerance. -/
theorem initChannel_extrema (loader : String → String → Option (List ℚ))
    (ch ch' : TMSIChannel)
    (h : initChannel loader ch = Except.ok ch')
    (hne : ch'.getSamples ≠ []) :
    (∀ y ∈ ch'.getSamples, ch'.getMinimum ≤ y ∧ y ≤ ch'.getMaximum) ∧
    ch'.getMinimum ∈ ch'.getSamples ∧
    ch'.getMaximum ∈ ch'.getSamples := by
  unfold initChannel at h
  cases hl : loader ch.m_qStringResourceDataPath ch.m_qStringChannelFile with
  | none =>
      rw [hl] at h
      exact absurd h (by simp)
  | some samples =>
      rw [hl] at h
      obtain rfl := Except.ok.inj h
      have hs : samples ≠ [] := hne
      refine ⟨?_, scanMin_mem samples hs, scanMax_mem samples hs⟩
      intro y hy
      exact ⟨scanMin_le samples hs y hy, scanMax_ge samples hs y hy⟩

/-- Witness for C5: loading the spec scenario waveform
[0.5, -2.0, 3.25, 1.0] yields minimum -2 and maximum 13/4 = 3.25. -/
theorem initChannel_extrema_witness :
    ((∀ y ∈ demoChannel.getSamples,
        demoChannel.getMinimum ≤ y ∧ y ≤ demoChannel.getMaximum) ∧
      demoChannel.getMinimum ∈ demoChannel.getSamples ∧
      demoChannel.getMaximum ∈ demoChannel.getSamples) ∧
    demoChannel.getMinimum = -2 ∧ demoChannel.getMaximum = 13 / 4 :=
  ⟨initChannel_extrema demoLoader baseChannel demoChannel rfl (by decide),
    by
      show scanMin [1 / 2, -2, 13 / 4, 1] = -2
      norm_num [scanMin, List.foldl_cons, List.foldl_nil, min_def],
    by
      show scanMax [1 / 2, -2, 13 / 4, 1] = 13 / 4
      norm_num [scanMax, List.foldl_cons, List.foldl_nil, max_def]⟩

/-- C6: when the external loader cannot produce data, `initChannel`
fails with `LoadFailure` and the channel state — samples and cached
extrema included — is exactly its pre-call state. -/
theorem initChannel_failure (loader : String → String → Option (List ℚ))
    (ch : TMSIChannel)
    (h : loader ch.m_qStringResourceDataPath ch.m_qStringChannelFile
      = none) :
    initChannel loader ch = Except.error BufError.LoadFailure ∧
    initChannelKeep loader ch = ch := by
  have he : initChannel loader ch = Except.error BufError.LoadFailure := by
    unfold initChannel
    rw [h]
  refine ⟨he, ?_⟩
  unfold initChannelKeep
  rw [he]

/-- Witness for C6: a loader that finds no resource leaves the fresh
channel untouched. -/
theorem initChannel_failure_witness :
    initChannel failLoader baseChannel =
      Except.error BufError.LoadFailure ∧
    initChannelKeep failLoader baseChannel = baseChannel :=
  initChannel_failure failLoader baseChannel rfl

/-- C7: `clear` always succeeds (it is a total operation), leaves the
samples empty, is idempotent, and a subsequent `initChannel` succeeds
exactly when it would have succeeded without the clear. -/
theorem clear_idempotent (ch : TMSIChannel)
    (loader : String → String → Option (List ℚ)) :
    (ch.clear).getSamples = [] ∧
    (ch.clear).clear = ch.clear ∧
    ((∃ c, initChannel loader ch.clear = Except.ok c) ↔
      (∃ c, initChannel loader ch = Except.ok c)) := by
  refine ⟨rfl, rfl, ?_⟩
  unfold initChannel clear
  dsimp only
  cases loader ch.m_qStringResourceDataPath ch.m_qStringChannelFile with
  | none => simp
  | some s => simp

/-- C8 counterexample: emptying the demo channel with `clear` and then
calling the getters returns the stale cached extrema (-2 and 13/4) from
before the buffer became empty — not a sentinel and not an error, whose
very possibility the getters lack, being unconditional field reads. -/
theorem empty_extrema_counterexample :
    (demoChannel.clear).getSamples = [] ∧
    (demoChannel.clear).getMinimum = demoChannel.getMinimum ∧
    (demoChannel.clear).getMaximum = demoChannel.getMaximum ∧
    demoChannel.getMinimum = -2 ∧ demoChannel.getMaximum = 13 / 4 :=
  ⟨rfl, rfl, rfl,
    by
      show scanMin [1 / 2, -2, 13 / 4, 1] = -2
      norm_num [scanMin, List.foldl_cons, List.foldl_nil, min_def],
    by
      show scanMax [1 / 2, -2, 13 / 4, 1] = 13 / 4
      norm_num [scanMax, List.foldl_cons, List.foldl_nil, max_def]⟩

/-- C8 amended: on a buffer emptied by `clear`, `minimum()` and
`maximum()` silently return the cached extrema from before the buffer
became empty, unchanged; no sentinel outcome and no error is produced
(the getters are unconditional reads of `m_dMin`/`m_dMax`). -/
theorem empty_extrema_stale (ch : TMSIChannel) :
    (ch.clear).getSamples = [] ∧
    (ch.clear).getMinimum = ch.getMinimum ∧
    (ch.clear).getMaximum = ch.getMaximum :=
  ⟨rfl, rfl, rfl⟩

/-- C9: `setEnabled` and `setVisible` each modify only their own flag:
samples, cached extrema, resource path, channel file and the other flag
are all unchanged. -/
theorem setFlags_frame (ch : TMSIChannel) (b : Bool) :
    (ch.setEnabled b).getSamples = ch.getSamples ∧
    (ch.setEnabled b).getMinimum = ch.getMinimum ∧
    (ch.setEnabled b).getMaximum = ch.getMaximum ∧
    (ch.setEnabled b).getResourceDataPath = ch.getResourceDataPath ∧
    (ch.setEnabled b).getChannelFile = ch.getChannelFile ∧
    (ch.setEnabled b).isVisible = ch.isVisible ∧
    (ch.setVisible b).getSamples = ch.getSamples ∧
    (ch.setVisible b).getMinimum = ch.getMinimum ∧
    (ch.setVisible b).getMaximum = ch.getMaximum ∧
    (ch.setVisible b).getResourceDataPath = ch.getResourceDataPath ∧
    (ch.setVisible b).getChannelFile = ch.getChannelFile ∧
    (ch.setVisible b).isEnabled = ch.isEnabled :=
  ⟨rfl, rfl, rfl, rfl, rfl, rfl, rfl, rfl, rfl, rfl, rfl, rfl⟩

/-- C10: the setter/getter round trip holds for both flags:
`isEnabled` right after `setEnabled b` is `b`, and `isVisible` right
after `setVisible b` is `b`. -/
theorem flags_roundtrip (ch : TMSIChannel) (b : Bool) :
    (ch.setEnabled b).isEnabled = b ∧ (ch.setVisible b).isVisible = b :=
  ⟨rfl, rfl⟩

end TMSIPlugin.TMSIChannel
